import Mathlib

/-!
Verification development for the RSS-to-Telegram bot (src/rss_bot.py).

The Python source is shallowly embedded below.  Pure functions become Lean
functions on `String` / `List Char`; network collaborators (newspaper3k,
requests/BeautifulSoup, the Hugging Face inference API, the Telegram bot
API) become explicit oracle arguments describing the response each call
receives; the mutable module state (the `processed_articles` set) is
threaded explicitly through the poll-loop functions.
-/

set_option maxRecDepth 100000

namespace RSSBot

/-! ### Python string primitives

`splitWsAux`/`pySplitWs` model Python `str.split()` (no separator): split on
runs of whitespace, dropping empty pieces.  `joinSp` models `" ".join(...)`.
`pySliceL` models the Python slice `l[:k]`, including negative `k`.
-/

/-- Accumulator-based splitter: `acc` holds the (reversed) current word. -/
def splitWsAux : List Char → List Char → List (List Char)
  | [], acc => if acc = [] then [] else [acc.reverse]
  | c :: cs, acc =>
    if c.isWhitespace then
      if acc = [] then splitWsAux cs [] else acc.reverse :: splitWsAux cs []
    else
      splitWsAux cs (c :: acc)

/-- Python `content.split()`: whitespace-separated words, no empties. -/
def pySplitWs (cs : List Char) : List (List Char) :=
  splitWsAux cs []

/-- Python `" ".join(words)` on character lists. -/
def joinSp : List (List Char) → List Char
  | [] => []
  | [w] => w
  | w :: v :: ws => w ++ ' ' :: joinSp (v :: ws)

/-- Python `" ".join(paragraphs)` on strings. -/
def joinStrSp (ps : List String) : String :=
  ⟨joinSp (ps.map String.data)⟩

/-- Python slice `l[:k]` for an `int` bound `k` (negative `k` counts from
the end, clamping at zero). -/
def pySliceL (l : List α) (k : Int) : List α :=
  if 0 ≤ k then l.take k.toNat else l.take ((l.length : Int) + k).toNat

/-- The prefix of `cs` running through the last full stop, or `none` if `cs`
contains no full stop.  This is Python `cs[:cs.rfind(".") + 1]` guarded by
`cs.rfind(".") != -1`. -/
def takeThroughLastDot : List Char → Option (List Char)
  | [] => none
  | c :: cs =>
    match takeThroughLastDot cs with
    | some p => some (c :: p)
    | none => if c = '.' then some [c] else none

/-! ### truncate_to_sentence (src/rss_bot.py lines 80-89)

```
words = content.split()
if len(words) <= max_words: return content
truncated = " ".join(words[:max_words])
last_period_index = truncated.rfind(".")
if last_period_index != -1: return truncated[:last_period_index + 1]
return truncated
```
`max_words` is an `Int` because one caller computes it as
`(1024 - len(title) - len(branding) - 20) // 5`, which can be negative. -/

def truncate_to_sentence (content : String) (max_words : Int) : String :=
  let words := pySplitWs content.data
  if (words.length : Int) ≤ max_words then content
  else
    let truncated := joinSp (pySliceL words max_words)
    match takeThroughLastDot truncated with
    | some p => ⟨p⟩
    | none => ⟨truncated⟩

/-! ### Caption assembly (src/rss_bot.py lines 146-159)

`escapeMD2` is `telegram.helpers.escape_markdown(text, version=2)`: every
character of the MarkdownV2 special set is prefixed with a backslash.
`max_caption_length` and `truncated_summary` are the computation
```
branding_length = len(BRANDING_MESSAGE)
max_caption_length = 1024 - len(article["title"]) - branding_length - 20
article["summary"] = truncate_to_sentence(article["summary"], max_words=max_caption_length // 5)
```
and `build_caption` is the f-string
`"*{esc(title)}*\n\n{esc(summary)}\n\n{esc(BRANDING_MESSAGE)}"`. -/

def BRANDING_MESSAGE : String := "Follow us for the latest updates in tech and AI!"

def MAX_RETRIES : Nat := 5

/-- The MarkdownV2 character set escaped by `escape_markdown(..., version=2)`. -/
def mdSpecialV2 : List Char :=
  ['_', '*', '[', ']', '(', ')', '~', '\x60', '>', '#', '+', '-', '=', '|',
   '\x7b', '\x7d', '.', '!']

def escapeMD2 (cs : List Char) : List Char :=
  cs.foldr (fun c acc => (if c ∈ mdSpecialV2 then ['\\', c] else [c]) ++ acc) []

def max_caption_length (title : String) : Int :=
  1024 - (title.data.length : Int) - (BRANDING_MESSAGE.data.length : Int) - 20

/-- Python `//` is floor division, hence `Int.fdiv`. -/
def maxWordsOf (title : String) : Int :=
  Int.fdiv (max_caption_length title) 5

def truncated_summary (title summary : String) : String :=
  truncate_to_sentence summary (maxWordsOf title)

def build_caption (title summary : String) : String :=
  ⟨['*'] ++ escapeMD2 title.data ++ ['*', '\n', '\n']
    ++ escapeMD2 (truncated_summary title summary).data ++ ['\n', '\n']
    ++ escapeMD2 BRANDING_MESSAGE.data⟩

/-! ### Delivery (post_to_telegram, src/rss_bot.py lines 146-185)

The Telegram bot is an oracle `sink : Nat → SinkResp` giving the response to
the k-th send attempt: success, `RetryAfter` (flood control with a
server-specified wait, already `int(...)`-converted), another
`TelegramError`, or any other exception.  One send per attempt is issued:
`send_photo` when `article["media_url"]` is truthy, else `send_message`;
neither call passes `disable_notification`, so every send uses the default
audible setting (`silent := false`).  `postGo` is the retry recursion with
`budget = MAX_RETRIES - retries` (the guard `retries < MAX_RETRIES` is
`budget > 0`); it returns the terminal outcome, the list of send calls
issued, and the list of `asyncio.sleep(retry_after)` durations in order.
The recursive Python call re-runs the truncation on the already-truncated
summary, which leaves the caption unchanged, so the send call is computed
once here. -/

structure Article where
  title : String
  link : String
  summary : String
  media_url : String
deriving DecidableEq

inductive SinkResp
  | sent
  | floodWait (w : Nat)
  | tgError
  | otherError
deriving DecidableEq

inductive Outcome
  | posted
  | retryExhausted
  | tgError
  | otherError
deriving DecidableEq

structure SendCall where
  isPhoto : Bool
  caption : String
  silent : Bool
deriving DecidableEq

def mkCall (a : Article) : SendCall :=
  { isPhoto := a.media_url != ""
    caption := build_caption a.title a.summary
    silent := false }

def postGo (sink : Nat → SinkResp) (call : SendCall) :
    Nat → Nat → Outcome × List SendCall × List Nat
  | 0, attempt =>
    -- retries = MAX_RETRIES: on flood control, give up without sleeping
    match sink attempt with
    | .sent => (.posted, [call], [])
    | .floodWait _ => (.retryExhausted, [call], [])
    | .tgError => (.tgError, [call], [])
    | .otherError => (.otherError, [call], [])
  | b + 1, attempt =>
    match sink attempt with
    | .sent => (.posted, [call], [])
    | .floodWait w =>
      -- sleep exactly the server-specified duration, then retry
      let r := postGo sink call b (attempt + 1)
      (r.1, call :: r.2.1, w :: r.2.2)
    | .tgError => (.tgError, [call], [])
    | .otherError => (.otherError, [call], [])

def post_to_telegram (sink : Nat → SinkResp) (article : Article) :
    Outcome × List SendCall × List Nat :=
  postGo sink (mkCall article) MAX_RETRIES 0

/-! ### Summarization (src/rss_bot.py lines 114-143)

The Hugging Face API is an oracle `oracle : Nat → HFResp` giving the
response to the k-th HTTP request of a run; `.ok s` is status 200 with
summary `s`, `.warming` is the non-200 "model warming up" response,
`.httpError` any other non-200, `.exn` a raised exception.
`summarize_with_huggingface` issues exactly one request (`oracle 0`) and
also returns the number of requests made; any non-200 response or exception
yields `None`.  `summarize_content` pre-truncates to 500 words, calls the
API once, and on a falsy result (`None` or `""`) falls back to
`truncate_to_sentence(content, max_words=max_length)`. -/

inductive HFResp
  | ok (s : String)
  | warming
  | httpError
  | exn
deriving DecidableEq

def summarize_with_huggingface (oracle : Nat → HFResp) (content : String) :
    Option String × Nat :=
  (match oracle 0 with
   | .ok s => some s
   | .warming => none
   | .httpError => none
   | .exn => none,
   1)

/-- Responses on which `summarize_with_huggingface` returns `None`. -/
def hfFails (r : HFResp) : Prop :=
  r = .warming ∨ r = .httpError ∨ r = .exn

def summarize_content (oracle : Nat → HFResp) (content : String)
    (max_length : Int) : String :=
  let truncated_content := truncate_to_sentence content 500
  match (summarize_with_huggingface oracle truncated_content).1 with
  | some s => if s = "" then truncate_to_sentence content max_length else s
  | none => truncate_to_sentence content max_length

/-! ### Content resolution (fetch_full_article_content, lines 52-77)

`primary` is the newspaper3k call: `.ok (article.text, article.top_image)`
or `.error ()` when `download()`/`parse()` raised.  `fallback` is the
requests + BeautifulSoup path: `.ok (paragraph texts, img src list)` or
`.error ()` when it raised.  The fallback is consulted only when the
primary raised; a primary result with empty text is returned as-is.
BeautifulSoup media selection is `images[0]["src"] if images else None`;
Python `None` is encoded as `""` (the loop only tests truthiness). -/

structure FetchOracle where
  primary : Except Unit (String × String)
  fallback : Except Unit (List String × List String)

def fetch_full_article_content (o : FetchOracle) : String × String :=
  match o.primary with
  | .ok r => r
  | .error _ =>
    match o.fallback with
    | .ok (paragraphs, images) => (joinStrSp paragraphs, images.headD "")
    | .error _ => ("", "")

/-! ### Poll loop (fetch_and_post, src/rss_bot.py lines 188-244)

One feed entry carries `entry.get("id", entry.link)`, `entry.title`,
`entry.link`.  `processEntry` is the body of the per-entry loop:
```
guid = entry.get("id", entry.link)
if guid in processed_articles: continue
processed_articles.add(guid)
full_content, media_url = fetch_full_article_content(link)
if not full_content: continue
summary = summarize_content(full_content)   # line 226
...
```
The call on line 226 passes one argument to the two-parameter
`summarize_content(content, max_length)`, so Python raises
`TypeError: missing required positional argument` before any delivery;
this is `PyError.typeError`.  The state is the `processed_articles` set,
modelled as a `List String` (membership test before insertion, so plain
cons).  `processFeedEntries` is the `for entry in feed.entries` loop: an
exception stops the loop.  `processFeed` is one feed inside the
`try/except` of lines 194-240: a fetch failure or an escaped entry
exception is logged and the cycle proceeds to the next feed.
`fetch_and_post_cycle` is one pass over `RSS_FEEDS`; `run_cycles` iterates
cycles of the `while True` loop. -/

structure Entry where
  id : Option String
  link : String
  title : String
deriving DecidableEq

inductive PyError
  | typeError
deriving DecidableEq

def processEntry (fetchO : String → FetchOracle) (processed : List String)
    (e : Entry) : List String × Option PyError :=
  let guid := e.id.getD e.link
  if guid ∈ processed then (processed, none)
  else
    (guid :: processed,
      if (fetch_full_article_content (fetchO e.link)).1 = "" then none
      else some PyError.typeError)

def processFeedEntries (fetchO : String → FetchOracle) :
    List String → List Entry → List String × Option PyError
  | processed, [] => (processed, none)
  | processed, e :: rest =>
    match processEntry fetchO processed e with
    | (p2, none) => processFeedEntries fetchO p2 rest
    | (p2, some err) => (p2, some err)

def processFeed (fetchO : String → FetchOracle) (processed : List String)
    (feed : Except Unit (List Entry)) : List String :=
  match feed with
  | .error _ => processed
  | .ok entries => (processFeedEntries fetchO processed entries).1

def fetch_and_post_cycle (fetchO : String → FetchOracle)
    (processed : List String) (feeds : List (Except Unit (List Entry))) :
    List String :=
  feeds.foldl (processFeed fetchO) processed

def run_cycles (fetchO : String → FetchOracle) (processed : List String)
    (cycles : List (List (Except Unit (List Entry)))) : List String :=
  cycles.foldl (fetch_and_post_cycle fetchO) processed

/-! ### Concrete fixtures used by witnesses and counterexamples -/

def sinkFloodOnce : Nat → SinkResp := fun k => if k = 0 then .floodWait 5 else .sent

def sinkAllFlood : Nat → SinkResp := fun k => .floodWait (k + 1)

def sinkAllSent : Nat → SinkResp := fun _ => .sent

def sinkReject : Nat → SinkResp := fun _ => .tgError

def artText : Article := ⟨"Title", "http://a", "Hello world.", ""⟩

def artText2 : Article := ⟨"Other", "http://b", "Second item.", ""⟩

def artMedia : Article := ⟨"Title", "http://a", "Hello world.", "http://img"⟩

def bigWord : String := ⟨List.replicate 1200 'a'⟩

def manyWords : String := ⟨joinSp (List.replicate 200 ['a'])⟩

def oracleEmptyAll : String → FetchOracle := fun _ => ⟨.error (), .error ()⟩

def oraclePrimaryEmpty : FetchOracle := ⟨.ok ("", "http://img"), .ok (["Secondary text."], [])⟩

def oracleGood : String → FetchOracle := fun _ => ⟨.ok ("Body text.", "http://img"), .error ()⟩

def entry1 : Entry := ⟨some "g1", "http://l1", "T1"⟩

def entry2 : Entry := ⟨some "g2", "http://l2", "T2"⟩

def oracleHFWarmThenOk : Nat → HFResp := fun k => if k = 0 then .warming else .ok "Great summary."

def oracleHFWarm : Nat → HFResp := fun _ => .warming

/-- A canonical word produced by `pySplitWs`: nonempty, no whitespace. -/
def goodWord (w : List Char) : Prop :=
  w ≠ [] ∧ ∀ c ∈ w, c.isWhitespace = false

/-! ## Helper lemmas on the string primitives -/

theorem splitWsAux_append_word (w : List Char)
    (hw : ∀ c ∈ w, c.isWhitespace = false) :
    ∀ (rest acc : List Char),
      splitWsAux (w ++ rest) acc = splitWsAux rest (w.reverse ++ acc) := by
  induction w with
  | nil => intro rest acc; simp
  | cons c w ih =>
    intro rest acc
    have hc : c.isWhitespace = false := hw c (List.mem_cons_self c w)
    have hw2 : ∀ d ∈ w, d.isWhitespace = false := fun d hd => hw d (List.mem_cons_of_mem c hd)
    simp only [List.cons_append, splitWsAux, hc, Bool.false_eq_true, if_false,
      List.reverse_cons, List.append_assoc, List.singleton_append]
    exact ih hw2 rest (c :: acc)

theorem splitWsAux_good :
    ∀ (cs acc : List Char), (∀ c ∈ acc, c.isWhitespace = false) →
      ∀ w ∈ splitWsAux cs acc, goodWord w := by
  intro cs
  induction cs with
  | nil =>
    intro acc hacc w hw
    by_cases h : acc = []
    · simp [splitWsAux, h] at hw
    · simp only [splitWsAux, h, if_false] at hw
      simp only [List.mem_singleton] at hw
      subst hw
      refine ⟨by simpa using h, ?_⟩
      intro c hc
      exact hacc c (List.mem_reverse.mp hc)
  | cons c cs ih =>
    intro acc hacc w hw
    by_cases hws : c.isWhitespace
    · by_cases h : acc = []
      · simp only [splitWsAux, hws, h, if_true] at hw
        exact ih [] (by simp) w hw
      · simp only [splitWsAux, hws, h, if_true, if_false, List.mem_cons] at hw
        rcases hw with hw | hw
        · subst hw
          refine ⟨by simpa using h, ?_⟩
          intro d hd
          exact hacc d (List.mem_reverse.mp hd)
        · exact ih [] (by simp) w hw
    · simp only [splitWsAux, hws, if_false] at hw
      refine ih (c :: acc) ?_ w hw
      intro d hd
      rcases List.mem_cons.mp hd with hd | hd
      · subst hd; simpa using hws
      · exact hacc d hd

theorem pySplitWs_good (cs : List Char) : ∀ w ∈ pySplitWs cs, goodWord w :=
  splitWsAux_good cs [] (by simp)

theorem splitWsAux_ne_nil :
    ∀ (cs acc : List Char), acc ≠ [] → splitWsAux cs acc ≠ [] := by
  intro cs
  induction cs with
  | nil => intro acc h; simp [splitWsAux, h]
  | cons c cs ih =>
    intro acc h
    by_cases hws : c.isWhitespace
    · simp only [splitWsAux, hws, h, if_true, if_false]
      simp
    · simp only [splitWsAux, hws, if_false]
      exact ih (c :: acc) (by simp)

theorem splitWsAux_length_le :
    ∀ (cs tl acc : List Char),
      (splitWsAux cs acc).length ≤ (splitWsAux (cs ++ tl) acc).length := by
  intro cs
  induction cs with
  | nil =>
    intro tl acc
    by_cases h : acc = []
    · simp [splitWsAux, h]
    · simp only [splitWsAux, h, if_false, List.length_singleton, List.nil_append]
      have := splitWsAux_ne_nil tl acc h
      exact Nat.one_le_iff_ne_zero.mpr (by simpa [List.length_eq_zero] using this)
  | cons c cs ih =>
    intro tl acc
    by_cases hws : c.isWhitespace
    · by_cases h : acc = []
      · simp only [List.cons_append, splitWsAux, hws, h, if_true]
        exact ih tl []
      · simp only [List.cons_append, splitWsAux, hws, h, if_true, if_false,
          List.length_cons]
        exact Nat.succ_le_succ (ih tl [])
    · simp only [List.cons_append, splitWsAux, hws, if_false]
      exact ih tl (c :: acc)

theorem pySplitWs_prefix_length_le (cs ds : List Char) (h : cs <+: ds) :
    (pySplitWs cs).length ≤ (pySplitWs ds).length := by
  obtain ⟨tl, rfl⟩ := h
  exact splitWsAux_length_le cs tl []

theorem pySplitWs_joinSp :
    ∀ (ws : List (List Char)), (∀ w ∈ ws, goodWord w) →
      pySplitWs (joinSp ws) = ws := by
  intro ws
  induction ws with
  | nil => intro _; simp [joinSp, pySplitWs, splitWsAux]
  | cons w ws ih =>
    intro hgood
    have hw : goodWord w := hgood w (List.mem_cons_self w ws)
    have hne : w.reverse ≠ [] := by simpa using hw.1
    cases ws with
    | nil =>
      show splitWsAux (joinSp [w]) [] = [w]
      have : joinSp [w] = w ++ [] := by simp [joinSp]
      rw [this, splitWsAux_append_word w hw.2 [] []]
      simp [splitWsAux, hne]
    | cons v ws2 =>
      show splitWsAux (joinSp (w :: v :: ws2)) [] = w :: v :: ws2
      have hj : joinSp (w :: v :: ws2) = w ++ ' ' :: joinSp (v :: ws2) := rfl
      rw [hj, splitWsAux_append_word w hw.2 (' ' :: joinSp (v :: ws2)) []]
      have hsp : (' ' : Char).isWhitespace = true := rfl
      simp only [splitWsAux, hsp, if_true, List.append_nil, hne, if_false,
        List.reverse_reverse]
      have := ih (fun u hu => hgood u (List.mem_cons_of_mem w hu))
      rw [show splitWsAux (joinSp (v :: ws2)) [] = pySplitWs (joinSp (v :: ws2)) from rfl, this]

theorem pySplitWs_joinSp_take (cs : List Char) (n : Nat) :
    pySplitWs (joinSp ((pySplitWs cs).take n)) = (pySplitWs cs).take n :=
  pySplitWs_joinSp _ (fun w hw => pySplitWs_good cs w (List.mem_of_mem_take hw))

theorem takeThroughLastDot_eq_none (cs : List Char) :
    takeThroughLastDot cs = none ↔ '.' ∉ cs := by
  induction cs with
  | nil => simp [takeThroughLastDot]
  | cons c cs ih =>
    simp only [takeThroughLastDot]
    cases htd : takeThroughLastDot cs with
    | some p =>
      have hdot : '.' ∈ cs := by
        by_contra hno
        rw [← ih] at hno
        simp [htd] at hno
      simp only [reduceCtorEq, false_iff, List.mem_cons]
      push_neg
      exact Or.inr hdot
    | none =>
      by_cases hc : c = '.'
      · subst hc
        simp
      · simp only [hc, if_false, true_iff, List.mem_cons]
        push_neg
        exact ⟨fun h => hc h.symm, ih.mp htd⟩

theorem takeThroughLastDot_some (cs : List Char) :
    ∀ p, takeThroughLastDot cs = some p →
      p <+: cs ∧ p.getLast? = some '.' := by
  induction cs with
  | nil => intro p h; simp [takeThroughLastDot] at h
  | cons c cs ih =>
    intro p h
    simp only [takeThroughLastDot] at h
    cases htd : takeThroughLastDot cs with
    | some q =>
      rw [htd] at h
      simp only [Option.some.injEq] at h
      subst h
      obtain ⟨hq, hlast⟩ := ih q htd
      have hqne : q ≠ [] := by
        intro hnil
        rw [hnil] at hlast
        simp at hlast
      constructor
      · obtain ⟨t, rfl⟩ := hq
        exact ⟨t, rfl⟩
      · cases q with
        | nil => exact absurd rfl hqne
        | cons x xs => rw [List.getLast?_cons_cons]; exact hlast
    | none =>
      rw [htd] at h
      by_cases hc : c = '.'
      · subst hc
        simp only [if_true] at h
        simp only [Option.some.injEq] at h
        subst h
        exact ⟨⟨cs, rfl⟩, rfl⟩
      · simp [hc] at h

theorem pySliceL_natCast (l : List α) (n : Nat) : pySliceL l (n : Int) = l.take n := by
  simp [pySliceL]

theorem pySliceL_nonneg (l : List α) (k : Int) (h : 0 ≤ k) :
    pySliceL l k = l.take k.toNat := by
  simp [pySliceL, h]

theorem truncate_eq_of_lt (content : String) (mw : Int)
    (h : mw < ((pySplitWs content.data).length : Int)) :
    truncate_to_sentence content mw =
      match takeThroughLastDot (joinSp (pySliceL (pySplitWs content.data) mw)) with
      | some p => (⟨p⟩ : String)
      | none => (⟨joinSp (pySliceL (pySplitWs content.data) mw)⟩ : String) := by
  simp only [truncate_to_sentence]
  rw [if_neg (not_le.mpr h)]

theorem truncate_data_prefix (content : String) (mw : Int)
    (h : mw < ((pySplitWs content.data).length : Int)) :
    (truncate_to_sentence content mw).data <+:
      joinSp (pySliceL (pySplitWs content.data) mw) := by
  rw [truncate_eq_of_lt content mw h]
  cases htd : takeThroughLastDot (joinSp (pySliceL (pySplitWs content.data) mw)) with
  | some p =>
    simpa using (takeThroughLastDot_some _ p htd).1
  | none => simp

/-! ## Claim theorems -/

/-- C6: for every input string and word cap, `truncate_to_sentence` cuts the
body to the cap-word window and then backs up to the last full stop (the
sentence-ending punctuation mark of the source, per its docstring) at or
before that boundary, so the result ends on a full stop whenever the window
contains one; if the window contains no full stop the raw word-truncated
text is emitted; and reducing "A. B. C. D." with a cap landing inside the
third sentence returns "A. B.". -/
theorem C6_truncate_sentence_safe (content : String) (cap : Nat)
    (h : (cap : Int) < ((pySplitWs content.data).length : Int)) :
    (truncate_to_sentence content (cap : Int)).data <+:
        joinSp ((pySplitWs content.data).take cap)
    ∧ ('.' ∈ joinSp ((pySplitWs content.data).take cap) →
        (truncate_to_sentence content (cap : Int)).data.getLast? = some '.')
    ∧ ('.' ∉ joinSp ((pySplitWs content.data).take cap) →
        (truncate_to_sentence content (cap : Int)).data =
          joinSp ((pySplitWs content.data).take cap))
    ∧ truncate_to_sentence "A. B. C. D." 2 = "A. B." := by
  have hsl : pySliceL (pySplitWs content.data) (cap : Int) =
      (pySplitWs content.data).take cap := pySliceL_natCast _ _
  refine ⟨?_, ?_, ?_, by decide⟩
  · have := truncate_data_prefix content (cap : Int) h
    rwa [hsl] at this
  · intro hdot
    rw [truncate_eq_of_lt content (cap : Int) h, hsl]
    cases htd : takeThroughLastDot (joinSp ((pySplitWs content.data).take cap)) with
    | some p =>
      simpa using (takeThroughLastDot_some _ p htd).2
    | none =>
      exact absurd hdot ((takeThroughLastDot_eq_none _).mp htd)
  · intro hno
    rw [truncate_eq_of_lt content (cap : Int) h, hsl,
      (takeThroughLastDot_eq_none _).mpr hno]

/-- C6 witness: the concrete spec test, obtained from the theorem at
content = "A. B. C. D.", cap = 2. -/
theorem C6_truncate_sentence_safe_witness :
    truncate_to_sentence "A. B. C. D." 2 = "A. B."
    ∧ (truncate_to_sentence "A. B. C. D." ((2 : Nat) : Int)).data.getLast? = some '.' := by
  have h := C6_truncate_sentence_safe "A. B. C. D." 2 (by decide)
  exact ⟨h.2.2.2, h.2.1 (by decide)⟩

/-- C4 counterexample: the claim says the assembled caption never exceeds
the 1024-character sink limit.  With title "T" and a summary that is a
single 1200-character word, the word cap (191 words) does not shorten the
summary at all and the assembled caption has 1256 characters. -/
theorem C4_counterexample : 1024 < (build_caption "T" bigWord).data.length := by
  decide

/-- C4 amended: maxWords is computed as
(1024 - len(title) - len(footer) - 20) // 5 and bounds the number of
words of the summary embedded in the caption (whenever it is nonnegative
and actually cuts); it is a five-characters-per-word heuristic, so the
caption character count is not bounded by 1024. -/
theorem C4_maxWords_bounds_summary_words (title summary : String)
    (h0 : 0 ≤ maxWordsOf title)
    (h1 : maxWordsOf title < ((pySplitWs summary.data).length : Int)) :
    ((pySplitWs (truncated_summary title summary).data).length : Int) ≤
      maxWordsOf title := by
  have hsl : pySliceL (pySplitWs summary.data) (maxWordsOf title) =
      (pySplitWs summary.data).take (maxWordsOf title).toNat :=
    pySliceL_nonneg _ _ h0
  have hpre := truncate_data_prefix summary (maxWordsOf title) h1
  rw [hsl] at hpre
  have hle := pySplitWs_prefix_length_le _ _ hpre
  rw [pySplitWs_joinSp_take] at hle
  have htake : ((pySplitWs summary.data).take (maxWordsOf title).toNat).length ≤
      (maxWordsOf title).toNat := List.length_take_le _ _
  have : (pySplitWs (truncated_summary title summary).data).length ≤
      (maxWordsOf title).toNat := le_trans hle htake
  calc ((pySplitWs (truncated_summary title summary).data).length : Int)
      ≤ ((maxWordsOf title).toNat : Int) := by exact_mod_cast this
    _ = maxWordsOf title := Int.toNat_of_nonneg h0

/-- C4 witness: with title "T" (maxWords = 191) and a 200-word summary, the
truncated summary has at most 191 words. -/
theorem C4_maxWords_bounds_summary_words_witness :
    ((pySplitWs (truncated_summary "T" manyWords).data).length : Int) ≤
      maxWordsOf "T" :=
  C4_maxWords_bounds_summary_words "T" manyWords (by decide) (by decide)

theorem postGo_trace_eq (sink : Nat → SinkResp) (call : SendCall) :
    ∀ (budget attempt : Nat), ∀ c ∈ (postGo sink call budget attempt).2.1, c = call := by
  intro budget
  induction budget with
  | zero =>
    intro attempt c hc
    cases hs : sink attempt with
    | sent => simp [postGo, hs] at hc; exact hc
    | floodWait w => simp [postGo, hs] at hc; exact hc
    | tgError => simp [postGo, hs] at hc; exact hc
    | otherError => simp [postGo, hs] at hc; exact hc
  | succ b ih =>
    intro attempt c hc
    cases hs : sink attempt with
    | sent => simp [postGo, hs] at hc; exact hc
    | floodWait w =>
      simp only [postGo, hs, List.mem_cons] at hc
      rcases hc with hc | hc
      · exact hc
      · exact ih (attempt + 1) c hc
    | tgError => simp [postGo, hs] at hc; exact hc
    | otherError => simp [postGo, hs] at hc; exact hc

/-- C2: a flood-control rejection carries a server-specified wait; the
scheduler sleeps exactly that duration before retrying, retries up to
MAX_RETRIES = 5 times (sleeping each server-specified duration in turn
before giving up as RetryExhausted), and a sink that flood-waits once and
then accepts yields a posted outcome with the single server-specified
sleep. -/
theorem C2_flood_wait_honored (sink : Nat → SinkResp) (a : Article)
    (w : Nat) (ws : Nat → Nat) :
    (sink 0 = .floodWait w → sink 1 = .sent →
      (post_to_telegram sink a).1 = .posted ∧ (post_to_telegram sink a).2.2 = [w])
    ∧ ((∀ k, sink k = .floodWait (ws k)) →
      (post_to_telegram sink a).1 = .retryExhausted ∧
        (post_to_telegram sink a).2.2 = [ws 0, ws 1, ws 2, ws 3, ws 4]) := by
  constructor
  · intro h0 h1
    simp [post_to_telegram, MAX_RETRIES, postGo, h0, h1]
  · intro h
    simp [post_to_telegram, MAX_RETRIES, postGo, h]

/-- C2 witness: a sink that flood-waits 5 seconds once then accepts gives a
posted outcome after exactly the 5-second sleep; a sink that always
flood-waits durations 1,2,3,... exhausts after the five server-specified
sleeps. -/
theorem C2_flood_wait_honored_witness :
    ((post_to_telegram sinkFloodOnce artText).1 = .posted
      ∧ (post_to_telegram sinkFloodOnce artText).2.2 = [5])
    ∧ ((post_to_telegram sinkAllFlood artText).1 = .retryExhausted
      ∧ (post_to_telegram sinkAllFlood artText).2.2 = [1, 2, 3, 4, 5]) :=
  ⟨(C2_flood_wait_honored sinkFloodOnce artText 5 id).1 rfl rfl,
   (C2_flood_wait_honored sinkAllFlood artText 0 (fun k => k + 1)).2 (fun _ => rfl)⟩

/-- C3 counterexample: the claim requires the second of two successful
deliveries 10 seconds apart (cooldown 60 seconds) to be marked silent.  The
code reads no clock, keeps no last-audible timestamp, and never passes a
notification-silencing flag: here two consecutive successful deliveries
both go out with silent = false, so the second is not marked silent. -/
theorem C3_counterexample :
    (post_to_telegram sinkAllSent artText).1 = .posted
    ∧ (post_to_telegram sinkAllSent artText2).1 = .posted
    ∧ (post_to_telegram sinkAllSent artText).2.1.all (fun c => !c.silent) = true
    ∧ (post_to_telegram sinkAllSent artText2).2.1.all (fun c => !c.silent) = true := by
  decide

/-- C3 amended: the delivery stage maintains no audibility state at all:
for every sink behavior and article, every send call it issues carries
silent = false (the sink default), so no delivery is ever marked silent
and no last-audible timestamp exists to reset. -/
theorem C3_no_audibility_state (sink : Nat → SinkResp) (a : Article) :
    (post_to_telegram sink a).2.1.all (fun c => !c.silent) = true := by
  rw [List.all_eq_true]
  intro c hc
  have hce := postGo_trace_eq sink (mkCall a) MAX_RETRIES 0 c hc
  subst hce
  simp [mkCall]

/-- C8 counterexample: the claim requires that when the sink rejects the
media payload, the scheduler degrades to exactly one text-only delivery of
the same caption.  With media set and a sink rejecting the media send as a
TelegramError, the code performs the single photo attempt and stops: no
text-only send occurs at all. -/
theorem C8_counterexample :
    (post_to_telegram sinkReject artMedia).1 = .tgError
    ∧ (post_to_telegram sinkReject artMedia).2.1 = [mkCall artMedia]
    ∧ (mkCall artMedia).isPhoto = true
    ∧ (post_to_telegram sinkReject artMedia).2.1.filter (fun c => !c.isPhoto) = [] := by
  decide

/-- C8 amended: when media is set, every send the scheduler issues on that
article is a media-with-caption send: a media rejection is handled like any
other TelegramError (logged and dropped) and there is no text-only
fallback delivery. -/
theorem C8_media_path_never_degrades (sink : Nat → SinkResp) (a : Article)
    (h : a.media_url ≠ "") :
    (post_to_telegram sink a).2.1.all (fun c => c.isPhoto) = true := by
  rw [List.all_eq_true]
  intro c hc
  have hce := postGo_trace_eq sink (mkCall a) MAX_RETRIES 0 c hc
  subst hce
  simp [mkCall, h]

/-- C8 witness: the amended claim at the concrete media article and a
media-rejecting sink. -/
theorem C8_media_path_never_degrades_witness :
    (post_to_telegram sinkReject artMedia).2.1.all (fun c => c.isPhoto) = true :=
  C8_media_path_never_degrades sinkReject artMedia (by decide)

/-- C7 counterexample: the claim requires a retry with exponential backoff
on a "model warming up" response.  With an oracle that warms up on the
first request and would succeed on a second, the reducer makes exactly one
request and returns the deterministic truncation, not the summary a retry
would have obtained. -/
theorem C7_counterexample :
    summarize_content oracleHFWarmThenOk "Alpha beta gamma delta." 2 = "Alpha beta"
    ∧ summarize_content oracleHFWarmThenOk "Alpha beta gamma delta." 2 ≠ "Great summary."
    ∧ (summarize_with_huggingface oracleHFWarmThenOk
        (truncate_to_sentence "Alpha beta gamma delta." 500)).2 = 1
    ∧ oracleHFWarmThenOk 1 = .ok "Great summary." := by
  decide

/-- C7 amended: the reducer issues exactly one summarization request per
item; on a warming-up response, any other non-success response, an
exception, or an empty summary it falls back immediately (no retry, no
backoff) to truncation of the body to the given word bound. -/
theorem C7_no_retry_on_warming (oracle : Nat → HFResp) (content : String)
    (max_length : Int) :
    (summarize_with_huggingface oracle (truncate_to_sentence content 500)).2 = 1
    ∧ (hfFails (oracle 0) →
        summarize_content oracle content max_length =
          truncate_to_sentence content max_length)
    ∧ (oracle 0 = .ok "" →
        summarize_content oracle content max_length =
          truncate_to_sentence content max_length) := by
  refine ⟨rfl, ?_, ?_⟩
  · intro hf
    rcases hf with h | h | h <;>
      simp [summarize_content, summarize_with_huggingface, h]
  · intro h
    simp [summarize_content, summarize_with_huggingface, h]

/-- C7 witness: the amended claim at a permanently warming oracle. -/
theorem C7_no_retry_on_warming_witness :
    (summarize_with_huggingface oracleHFWarm
        (truncate_to_sentence "Body text here." 500)).2 = 1
    ∧ summarize_content oracleHFWarm "Body text here." 2 =
        truncate_to_sentence "Body text here." 2 := by
  have h := C7_no_retry_on_warming oracleHFWarm "Body text here." 2
  exact ⟨h.1, h.2.1 (Or.inl rfl)⟩

theorem String_mk_eq_empty_iff (l : List Char) : (⟨l⟩ : String) = "" ↔ l = [] := by
  constructor
  · intro h
    exact congrArg String.data h
  · intro h
    rw [h]

/-- C5 counterexample: the claim requires each later strategy to be
attempted whenever the previous yields empty body text.  With a primary
extractor that returns successfully but with empty text, the resolver
returns that empty result as-is; the same (working) fallback is consulted
only when the primary raises, where it would return the secondary text. -/
theorem C5_counterexample :
    fetch_full_article_content oraclePrimaryEmpty = ("", "http://img")
    ∧ fetch_full_article_content ⟨.error (), oraclePrimaryEmpty.fallback⟩ =
        ("Secondary text.", "")
    ∧ ("Secondary text." : String) ≠ "" := by
  refine ⟨rfl, rfl, by decide⟩

/-- C5 amended: the resolver tries structured extraction and then, only
when that raises an exception (not when it returns empty body text), the
generic paragraph extraction; there is no feed-native-summary strategy
inside the resolver.  With a raising primary and a working secondary whose
first paragraph is nonempty it returns the secondary result, which has
nonempty body text. -/
theorem C5_fallback_on_exception_only (text img p : String)
    (ps imgs : List String) (fb : Except Unit (List String × List String))
    (hp : p ≠ "") :
    fetch_full_article_content ⟨.ok (text, img), fb⟩ = (text, img)
    ∧ fetch_full_article_content ⟨.error (), .ok (p :: ps, imgs)⟩ =
        (joinStrSp (p :: ps), imgs.headD "")
    ∧ (fetch_full_article_content ⟨.error (), .ok (p :: ps, imgs)⟩).1 ≠ "" := by
  refine ⟨rfl, rfl, ?_⟩
  show joinStrSp (p :: ps) ≠ ""
  have hpd : p.data ≠ [] := by
    intro hn
    apply hp
    have : p = ⟨p.data⟩ := rfl
    rw [this, hn]
  cases ps with
  | nil =>
    intro hcontra
    rw [joinStrSp, String_mk_eq_empty_iff] at hcontra
    exact hpd (by simpa [joinSp] using hcontra)
  | cons q qs =>
    intro hcontra
    rw [joinStrSp, String_mk_eq_empty_iff] at hcontra
    simp [joinSp] at hcontra

/-- C5 witness: the amended claim at the concrete secondary page. -/
theorem C5_fallback_on_exception_only_witness :
    fetch_full_article_content ⟨.error (), .ok (["Secondary text."], [])⟩ =
        (joinStrSp ["Secondary text."], "")
    ∧ (fetch_full_article_content ⟨.error (), .ok (["Secondary text."], [])⟩).1 ≠ "" := by
  have h := C5_fallback_on_exception_only "" "" "Secondary text." [] []
    (.error ()) (by decide)
  exact ⟨h.2.1, h.2.2⟩

theorem guid_mem_processEntry (fetchO : String → FetchOracle)
    (processed : List String) (e : Entry) :
    (e.id.getD e.link) ∈ (processEntry fetchO processed e).1 := by
  by_cases h : (e.id.getD e.link) ∈ processed <;> simp [processEntry, h]

theorem mem_processEntry_mono (fetchO : String → FetchOracle)
    (processed : List String) (e : Entry) (a : String) (h : a ∈ processed) :
    a ∈ (processEntry fetchO processed e).1 := by
  by_cases hm : (e.id.getD e.link) ∈ processed <;>
    simp [processEntry, hm, h, List.mem_cons]

theorem mem_processFeedEntries_mono (fetchO : String → FetchOracle) :
    ∀ (es : List Entry) (processed : List String) (a : String),
      a ∈ processed → a ∈ (processFeedEntries fetchO processed es).1 := by
  intro es
  induction es with
  | nil => intro p a h; simpa [processFeedEntries] using h
  | cons e es ih =>
    intro p a h
    have h2 : a ∈ (processEntry fetchO p e).1 := mem_processEntry_mono fetchO p e a h
    rcases hpe : processEntry fetchO p e with ⟨p2, err⟩
    rw [hpe] at h2
    cases err with
    | none =>
      simp only [processFeedEntries, hpe]
      exact ih p2 a h2
    | some er =>
      simp only [processFeedEntries, hpe]
      exact h2

theorem guid_mem_processFeedEntries_head (fetchO : String → FetchOracle)
    (processed : List String) (e : Entry) (es : List Entry) :
    (e.id.getD e.link) ∈ (processFeedEntries fetchO processed (e :: es)).1 := by
  have h1 := guid_mem_processEntry fetchO processed e
  rcases hpe : processEntry fetchO processed e with ⟨p2, err⟩
  rw [hpe] at h1
  cases err with
  | none =>
    simp only [processFeedEntries, hpe]
    exact mem_processFeedEntries_mono fetchO es p2 _ h1
  | some er =>
    simp only [processFeedEntries, hpe]
    exact h1

theorem mem_processFeed_mono (fetchO : String → FetchOracle)
    (processed : List String) (f : Except Unit (List Entry)) (a : String)
    (h : a ∈ processed) : a ∈ processFeed fetchO processed f := by
  cases f with
  | error u => simpa [processFeed] using h
  | ok es => exact mem_processFeedEntries_mono fetchO es processed a h

theorem mem_cycle_mono (fetchO : String → FetchOracle) :
    ∀ (feeds : List (Except Unit (List Entry))) (processed : List String)
      (a : String), a ∈ processed → a ∈ fetch_and_post_cycle fetchO processed feeds := by
  intro feeds
  induction feeds with
  | nil => intro p a h; simpa [fetch_and_post_cycle] using h
  | cons f feeds ih =>
    intro p a h
    show a ∈ List.foldl (processFeed fetchO) (processFeed fetchO p f) feeds
    exact ih (processFeed fetchO p f) a (mem_processFeed_mono fetchO p f a h)

theorem mem_run_cycles_mono (fetchO : String → FetchOracle) :
    ∀ (cycles : List (List (Except Unit (List Entry)))) (processed : List String)
      (a : String), a ∈ processed → a ∈ run_cycles fetchO processed cycles := by
  intro cycles
  induction cycles with
  | nil => intro p a h; simpa [run_cycles] using h
  | cons c cycles ih =>
    intro p a h
    show a ∈ List.foldl (fetch_and_post_cycle fetchO) (fetch_and_post_cycle fetchO p c) cycles
    exact ih (fetch_and_post_cycle fetchO p c) a (mem_cycle_mono fetchO c p a h)

/-- C1 counterexample: the claim requires that an entry whose every content
strategy yields empty body text is skipped without being marked seen.  With
both strategies failing (empty resolution), the entry is skipped, yet its
identifier has already been added to processed_articles — the code marks
the ledger right after the membership check, before any delivery outcome. -/
theorem C1_counterexample :
    fetch_full_article_content (oracleEmptyAll entry1.link) = ("", "")
    ∧ processEntry oracleEmptyAll [] entry1 = (["g1"], none)
    ∧ "g1" ∈ (processEntry oracleEmptyAll [] entry1).1 := by
  refine ⟨rfl, rfl, by decide⟩

/-- C1 amended: the entry identifier is added to the dedup ledger
immediately after the membership check — before content resolution and
before any delivery attempt — so it is marked seen regardless of the
outcome; an entry whose every strategy yields empty body text is skipped
(no error, no delivery) but remains marked seen and is not retried on a
later poll cycle. -/
theorem C1_marked_at_dedup_check (fetchO : String → FetchOracle)
    (processed : List String) (e : Entry) :
    (e.id.getD e.link) ∈ (processEntry fetchO processed e).1
    ∧ ((fetch_full_article_content (fetchO e.link)).1 = "" →
        (processEntry fetchO processed e).2 = none) := by
  constructor
  · exact guid_mem_processEntry fetchO processed e
  · intro hfc
    by_cases h : (e.id.getD e.link) ∈ processed <;> simp [processEntry, h, hfc]

/-- C1 witness: the amended claim at the all-empty resolver and a fresh
ledger. -/
theorem C1_marked_at_dedup_check_witness :
    "g1" ∈ (processEntry oracleEmptyAll [] entry1).1
    ∧ (processEntry oracleEmptyAll [] entry1).2 = none := by
  have h := C1_marked_at_dedup_check oracleEmptyAll [] entry1
  exact ⟨h.1, h.2 (by decide)⟩

/-- C9 counterexample: the claim requires failures to be caught at the
entry-processing boundary so remaining entries of the same feed still run.
The try/except actually sits at the feed level: here the first entry
raises (the call summarize_content(full_content) on line 226 omits the
required max_length argument, a TypeError on every entry with nonempty
content), the loop aborts, and the second entry of the same feed is never
examined in that cycle. -/
theorem C9_counterexample :
    processFeedEntries oracleGood [] [entry1, entry2] =
        (["g1"], some PyError.typeError)
    ∧ "g2" ∉ (processFeedEntries oracleGood [] [entry1, entry2]).1 := by
  refine ⟨rfl, by decide⟩

/-- C9 amended: failures are caught at the feed-processing boundary, not
the entry boundary: an entry failure aborts the remaining entries of its
feed for that cycle, but it cannot halt the poll cycle — a fetch error for
one source is skipped and the loop proceeds to the next source, and the
first entry of a following feed is always examined (hence marked) no
matter what happened in earlier feeds. -/
theorem C9_feed_level_isolation (fetchO : String → FetchOracle)
    (processed : List String) (u : Unit) (es1 : List Entry) (e : Entry)
    (es2 : List Entry) (rest : List (Except Unit (List Entry))) :
    fetch_and_post_cycle fetchO processed (.error u :: rest) =
      fetch_and_post_cycle fetchO processed rest
    ∧ (e.id.getD e.link) ∈
        fetch_and_post_cycle fetchO processed (.ok es1 :: .ok (e :: es2) :: rest) := by
  constructor
  · rfl
  · show (e.id.getD e.link) ∈ fetch_and_post_cycle fetchO
      (processFeed fetchO (processFeed fetchO processed (.ok es1)) (.ok (e :: es2))) rest
    apply mem_cycle_mono
    exact guid_mem_processFeedEntries_head fetchO _ e es2

/-- C10: the in-memory dedup ledger is monotone for the process lifetime:
no step of the poll loop ever removes an identifier, so once present it
stays present across entries, feeds, and whole poll cycles. -/
theorem C10_processed_articles_monotone (fetchO : String → FetchOracle)
    (processed : List String) (cycles : List (List (Except Unit (List Entry))))
    (a : String) (h : a ∈ processed) :
    a ∈ run_cycles fetchO processed cycles :=
  mem_run_cycles_mono fetchO cycles processed a h

/-- C10 witness: a previously recorded identifier survives a cycle that
processes further entries. -/
theorem C10_processed_articles_monotone_witness :
    "x" ∈ run_cycles oracleGood ["x"] [[.ok [entry1]], [.ok [entry2]]] :=
  C10_processed_articles_monotone oracleGood ["x"] [[.ok [entry1]], [.ok [entry2]]]
    "x" (by decide)

end RSSBot
